import Mathlib

/-!
# Verification of the user-agent analysis pipeline

A shallow embedding of `src/parse_access_log.py` and `src/analyze_stats.py`
(the User-Agent token parser, token ranker, bot classifier, engine resolver,
and the statistics report of the analysis tool), together with theorems that
settle the specification claims about them.

Strings are modelled as `List Char` (Python `str` over its characters);
Python regular-expression character classes (`\w`, whitespace) are modelled
over ASCII, which covers every input the claims mention.  Python runtime
exceptions (`AttributeError`, `ValueError`, `UnboundLocalError` /
`NameError`, `ZeroDivisionError`) are modelled explicitly with `Except`.
-/

namespace UA

/-- Python exceptions that the embedded code can raise. -/
inductive PyExn where
  /-- `AttributeError`, e.g. calling `.split` on `None`. -/
  | attributeError
  /-- `ValueError`, e.g. `int()` on a non-numeric string. -/
  | valueError
  /-- `UnboundLocalError` / `NameError`: a local variable referenced before
  it was ever assigned (Python raises `NameError` or its subclass
  `UnboundLocalError` in the two situations modelled here). -/
  | unboundLocal
  /-- `ZeroDivisionError`. -/
  | zeroDivision
deriving DecidableEq

/-- A parsed product token `(name, version, comment)` as produced by
`parse_user_agent`: the Python tuple with `None` modelled by `Option`. -/
structure ProductToken where
  name : List Char
  version : Option (List Char)
  comment : Option (List Char)
deriving DecidableEq

/-- Python `str.strip()` whitespace (ASCII part): space, tab, newline,
carriage return, vertical tab, form feed. -/
def isPySpace (c : Char) : Bool :=
  c = ' ' || c = '\t' || c = '\n' || c = '\r' || c = '\x0b' || c = '\x0c'

/-- Python `str.strip()`: remove leading and trailing whitespace. -/
def pyStrip (s : List Char) : List Char :=
  ((s.dropWhile isPySpace).reverse.dropWhile isPySpace).reverse

/-- Python regex `\w` (ASCII part): letters, digits and underscore. -/
def isWordChar (c : Char) : Bool := c.isAlphanum || c = '_'

/-- The character class `[\w .]` of the leading `name` pattern
(`parse_access_log.py` line 78). -/
def isNameChar (c : Char) : Bool := isWordChar c || c = ' ' || c = '.'

/-- `re.match("^([\w .]+)(/([^ ]+))?", s)` (line 78/85): greedily take the
product name; then, if a `/` follows and at least one non-space character
follows it, greedily take the version.  Returns
`(match[1], match[3], s minus match[0])`, or `none` when the name part is
empty (pattern does not match). -/
def matchNameVersion (s : List Char) :
    Option (List Char × Option (List Char) × List Char) :=
  if (s.takeWhile isNameChar).isEmpty then none
  else
    if (s.dropWhile isNameChar).head? = some '/' then
      if ((s.dropWhile isNameChar).tail.takeWhile (fun c => c ≠ ' ')).isEmpty then
        some (s.takeWhile isNameChar, none, s.dropWhile isNameChar)
      else
        some (s.takeWhile isNameChar,
          some ((s.dropWhile isNameChar).tail.takeWhile (fun c => c ≠ ' ')),
          (s.dropWhile isNameChar).tail.dropWhile (fun c => c ≠ ' '))
    else some (s.takeWhile isNameChar, none, s.dropWhile isNameChar)

/-- The comment scan of `parse_user_agent` (lines 95–102): walking the
characters after the opening `(` (argument `i` is the index in the full
remaining string, starting at `1`), track the nesting depth and return the
position at which the depth first returns to `0`, or `none` when it never
does (the `for` loop completes without `break`). -/
def findClose : List Char → Int → Nat → Option Nat
  | [], _, _ => none
  | c :: cs, depth, i =>
    if c = '(' then findClose cs (depth + 1) (i + 1)
    else if c = ')' then
      if depth = 1 then some i else findClose cs (depth - 1) (i + 1)
    else findClose cs depth (i + 1)

theorem takeWhile_append_dropWhile_length {p : Char → Bool} (s : List Char) :
    (s.takeWhile p).length + (s.dropWhile p).length = s.length := by
  rw [← List.length_append, List.takeWhile_append_dropWhile]

theorem matchNameVersion_rest_lt {s n v r}
    (h : matchNameVersion s = some (n, v, r)) : r.length < s.length := by
  have hlen := @takeWhile_append_dropWhile_length isNameChar s
  unfold matchNameVersion at h
  by_cases he : (s.takeWhile isNameChar).isEmpty = true
  · simp [he] at h
  · have htpos : 0 < (s.takeWhile isNameChar).length := by
      cases hc : s.takeWhile isNameChar with
      | nil => rw [hc] at he; simp at he
      | cons a l => simp [hc]
    have hdrop : (s.dropWhile isNameChar).length < s.length := by omega
    simp only [he, if_false] at h
    by_cases hh : (s.dropWhile isNameChar).head? = some '/'
    · simp only [hh, if_true] at h
      by_cases hv :
          ((s.dropWhile isNameChar).tail.takeWhile (fun c => c ≠ ' ')).isEmpty = true
      · simp only [hv, if_true, Option.some.injEq, Prod.mk.injEq] at h
        obtain ⟨-, -, h3⟩ := h
        omega
      · simp only [hv, if_false, Option.some.injEq, Prod.mk.injEq] at h
        obtain ⟨-, -, h3⟩ := h
        have h4 : ((s.dropWhile isNameChar).tail.dropWhile (fun c => c ≠ ' ')).length
            ≤ (s.dropWhile isNameChar).tail.length :=
          (List.dropWhile_sublist _).length_le
        have h5 : (s.dropWhile isNameChar).tail.length
            ≤ (s.dropWhile isNameChar).length := (s.dropWhile isNameChar).length_tail ▸
          Nat.sub_le _ _
        omega
    · simp only [hh, if_false, Option.some.injEq, Prod.mk.injEq] at h
      obtain ⟨-, -, h3⟩ := h
      omega

theorem pyStrip_length_le (s : List Char) : (pyStrip s).length ≤ s.length := by
  unfold pyStrip
  calc ((s.dropWhile isPySpace).reverse.dropWhile isPySpace).reverse.length
      = ((s.dropWhile isPySpace).reverse.dropWhile isPySpace).length := by
        rw [List.length_reverse]
    _ ≤ (s.dropWhile isPySpace).reverse.length := (List.dropWhile_sublist _).length_le
    _ = (s.dropWhile isPySpace).length := by rw [List.length_reverse]
    _ ≤ s.length := (List.dropWhile_sublist _).length_le

theorem pyStrip_drop_length_le (l : List Char) (n : Nat) :
    (pyStrip (l.drop n)).length ≤ l.length :=
  le_trans (pyStrip_length_le _) (l.drop_sublist n).length_le

/-- The `while` loop of `parse_user_agent` (lines 83–106), parameterised by
the current remaining string `s` (already stripped) and by the current
binding of the `for`-loop variable `pos`, which in Python survives across
iterations of the `while` loop: `posSt = none` means `pos` has never been
bound in this call.

Each iteration matches the leading `name[/version]` pattern (breaking out of
the loop when it fails), strips, then — when the remainder starts with `(` —
runs the comment scan.  When at least one character follows the `(` the scan
loop runs and leaves `pos` at the break position, or at the last index when
the depth never returns to `0`; `comment = s[1:pos]` and the remainder is
`s[pos+1:]`.  When the remainder is exactly `"("` the `for` loop body never
runs: referencing `pos` then raises `NameError` if it was never bound, and
otherwise silently reuses the stale value from an earlier token's scan. -/
def parseUAGo (s : List Char) (posSt : Option Nat) :
    Except PyExn (List ProductToken) :=
  match h : matchNameVersion s with
  | none => .ok []
  | some (name, ver, rest0) =>
    if (pyStrip rest0).head? = some '(' then
      if 2 ≤ (pyStrip rest0).length then
        (parseUAGo
            (pyStrip ((pyStrip rest0).drop
              ((findClose ((pyStrip rest0).drop 1) 1 1).getD
                ((pyStrip rest0).length - 1) + 1)))
            (some ((findClose ((pyStrip rest0).drop 1) 1 1).getD
              ((pyStrip rest0).length - 1)))).map
          (fun ts => ⟨name, ver, some (((pyStrip rest0).drop 1).take
            ((findClose ((pyStrip rest0).drop 1) 1 1).getD
              ((pyStrip rest0).length - 1) - 1))⟩ :: ts)
      else
        match posSt with
        | none => .error .unboundLocal
        | some p =>
          (parseUAGo (pyStrip ((pyStrip rest0).drop (p + 1))) (some p)).map
            (fun ts => ⟨name, ver, some (((pyStrip rest0).drop 1).take (p - 1))⟩ :: ts)
    else
      (parseUAGo (pyStrip rest0) posSt).map (fun ts => ⟨name, ver, none⟩ :: ts)
termination_by s.length
decreasing_by
  all_goals first
    | exact lt_of_le_of_lt
        (le_trans (pyStrip_drop_length_le _ _) (pyStrip_length_le _))
        (matchNameVersion_rest_lt h)
    | exact lt_of_le_of_lt (pyStrip_length_le _) (matchNameVersion_rest_lt h)

/-- `parse_user_agent` (lines 64–108): strip the header, then run the token
loop with the `pos` variable not yet bound. -/
def parse_user_agent (s : String) : Except PyExn (List ProductToken) :=
  parseUAGo (pyStrip s.data) none

/-- Loop exit: when the leading pattern does not match, no further token is
produced (line 86–87). -/
theorem parseUAGo_eq_nil {s : List Char} {posSt : Option Nat}
    (h : matchNameVersion s = none) : parseUAGo s posSt = .ok [] := by
  rw [parseUAGo.eq_def]
  split
  · rfl
  · rename_i name ver rest0 heq
    rw [h] at heq
    cases heq

/-- A token without a comment: the remainder after `name[/version]` does not
start with `(`. -/
theorem parseUAGo_noComment {s : List Char} {posSt : Option Nat}
    {n : List Char} {v : Option (List Char)} {r0 : List Char}
    (h : matchNameVersion s = some (n, v, r0))
    (hc : ¬ (pyStrip r0).head? = some '(') :
    parseUAGo s posSt =
      (parseUAGo (pyStrip r0) posSt).map (fun ts => ⟨n, v, none⟩ :: ts) := by
  rw [parseUAGo.eq_def]
  split
  · rename_i heq; rw [h] at heq; cases heq
  · rename_i name ver rest0 heq
    rw [h] at heq
    injection heq with heq
    injection heq with e1 heq
    injection heq with e2 e3
    subst e1; subst e2; subst e3
    rw [if_neg hc]

/-- A token with a scanned comment: the remainder starts with `(` and at
least one character follows, so the scan loop runs; `P` is the final value
of `pos` (break position, or last index when the depth never returns
to `0`). -/
theorem parseUAGo_comment {s : List Char} {posSt : Option Nat}
    {n : List Char} {v : Option (List Char)} {r0 : List Char} {P : Nat}
    (h : matchNameVersion s = some (n, v, r0))
    (hc : (pyStrip r0).head? = some '(')
    (h2 : 2 ≤ (pyStrip r0).length)
    (hp : (findClose ((pyStrip r0).drop 1) 1 1).getD ((pyStrip r0).length - 1) = P) :
    parseUAGo s posSt =
      (parseUAGo (pyStrip ((pyStrip r0).drop (P + 1))) (some P)).map
        (fun ts => ⟨n, v, some (((pyStrip r0).drop 1).take (P - 1))⟩ :: ts) := by
  rw [parseUAGo.eq_def]
  split
  · rename_i heq; rw [h] at heq; cases heq
  · rename_i name ver rest0 heq
    rw [h] at heq
    injection heq with heq
    injection heq with e1 heq
    injection heq with e2 e3
    subst e1; subst e2; subst e3
    rw [if_pos hc, if_pos h2, hp]

/-- The degenerate comment `"("` with `pos` never previously bound in this
call: the `for` loop body never runs and the later reference to `pos`
raises `NameError`. -/
theorem parseUAGo_lparen_none {s : List Char}
    {n : List Char} {v : Option (List Char)} {r0 : List Char}
    (h : matchNameVersion s = some (n, v, r0))
    (hc : (pyStrip r0).head? = some '(')
    (h2 : (pyStrip r0).length < 2) :
    parseUAGo s none = .error .unboundLocal := by
  rw [parseUAGo.eq_def]
  split
  · rename_i heq; rw [h] at heq; cases heq
  · rename_i name ver rest0 heq
    rw [h] at heq
    injection heq with heq
    injection heq with e1 heq
    injection heq with e2 e3
    subst e1; subst e2; subst e3
    rw [if_pos hc, if_neg (by omega)]

/-- The degenerate comment `"("` with a stale `pos = p` surviving from an
earlier token's comment scan in the same call: `comment = s[1:p]` and the
remainder is `s[p+1:]` computed on the one-character string `"("`. -/
theorem parseUAGo_lparen_stale {s : List Char} {p : Nat}
    {n : List Char} {v : Option (List Char)} {r0 : List Char}
    (h : matchNameVersion s = some (n, v, r0))
    (hc : (pyStrip r0).head? = some '(')
    (h2 : (pyStrip r0).length < 2) :
    parseUAGo s (some p) =
      (parseUAGo (pyStrip ((pyStrip r0).drop (p + 1))) (some p)).map
        (fun ts => ⟨n, v, some (((pyStrip r0).drop 1).take (p - 1))⟩ :: ts) := by
  rw [parseUAGo.eq_def]
  split
  · rename_i heq; rw [h] at heq; cases heq
  · rename_i name ver rest0 heq
    rw [h] at heq
    injection heq with heq
    injection heq with e1 heq
    injection heq with e2 e3
    subst e1; subst e2; subst e3
    rw [if_pos hc, if_neg (by omega)]

instance {ε α : Type} [DecidableEq ε] [DecidableEq α] : DecidableEq (Except ε α) :=
  fun a b =>
  match a, b with
  | .error e, .error f =>
    match decEq e f with
    | isTrue h => isTrue (h ▸ rfl)
    | isFalse h => isFalse (fun c => h (Except.error.inj c))
  | .ok x, .ok y =>
    match decEq x y with
    | isTrue h => isTrue (h ▸ rfl)
    | isFalse h => isFalse (fun c => h (Except.ok.inj c))
  | .error _, .ok _ => isFalse (fun c => Except.noConfusion c)
  | .ok _, .error _ => isFalse (fun c => Except.noConfusion c)

/-! ## Token ranker (`sort_user_agent_tokens`, lines 111–151) -/

/-- The fixed table of generic product names (lines 122–142). -/
def generic_product_names : List (List Char) :=
  ["Mozilla".data, "Gecko".data, "AppleWebKit".data, "Safari".data,
   "Mobile Safari".data, "Mobile".data, "Chrome".data]

/-- The sort key (lines 144–149): `len(generic_product_names) -
generic_product_names.index(name)` for a listed name ("Mozilla" gets `7`,
"Chrome" gets `1`), and `-1` when `.index` raises `ValueError` (name not
listed). -/
def token_priority (t : ProductToken) : Int :=
  match generic_product_names.indexOf? t.name with
  | some i => (generic_product_names.length : Int) - (i : Int)
  | none => -1

/-- `sorted(tokens, key=token_priority)` (line 151): Python's `sorted` is a
stable sort by ascending key, which is exactly `List.mergeSort` with the
key-comparison `≤`. -/
def sort_user_agent_tokens (tokens : List ProductToken) : List ProductToken :=
  tokens.mergeSort (fun a b => token_priority a ≤ token_priority b)

/-! ## Bot classifier (`is_user_agent_a_bot`, lines 250–282) -/

/-- One comment: split on `;`, strip each piece, and truncate a piece
containing `/` to the part before the first `/` (lines 263–268). -/
def commentTerms (c : List Char) : List (List Char) :=
  (c.splitOn ';').map (fun t =>
    if '/' ∈ pyStrip t then (pyStrip t).takeWhile (fun c => c ≠ '/')
    else pyStrip t)

/-- The candidate bot-name terms (lines 259–269): every token's name plus,
for every token whose comment is truthy (present and non-empty), the
comment's terms.  The Python code collects these into a `set`; membership
(what the final disjunction depends on) is unchanged by deduplication and
iteration order, so a list is used here. -/
def botCandidates (tokens : List ProductToken) : List (List Char) :=
  tokens.foldr (fun t acc =>
    t.name :: ((match t.comment with
      | some c => if c.isEmpty then [] else commentTerms c
      | none => []) ++ acc)) []

/-- `re.match(".*bot$", term, re.IGNORECASE)` on the reversed term: the
term must end with `bot` (case-insensitively), possibly followed by one
final newline (`$` also matches just before a trailing newline), and the
part matched by `.*` may not contain a newline. -/
def endsRevBot : List Char → Bool
  | t :: o :: b :: rest =>
    t.toLower = 't' && o.toLower = 'o' && b.toLower = 'b' &&
      rest.all (fun c => c ≠ '\n')
  | _ => false

/-- `re.match(".*bot$", term, re.IGNORECASE)` (line 275). -/
def pyMatchBotDollar (term : List Char) : Bool :=
  if (term.reverse).head? = some '\n' then endsRevBot (term.reverse).tail
  else endsRevBot term.reverse

/-- `re.search("[^A-Za-z]bot[^A-Za-z]", s, re.IGNORECASE)` (line 279):
somewhere in `s`, `bot` (case-insensitively) with a non-letter character
on each side. -/
def pyBotSurrounded : List Char → Bool
  | c1 :: rest =>
    (match rest with
     | b :: o :: t :: c2 :: _ =>
       !c1.isAlpha && b.toLower = 'b' && o.toLower = 'o' && t.toLower = 't' &&
         !c2.isAlpha
     | _ => false) || pyBotSurrounded rest
  | [] => false

/-- The value of the loop variable `name` after the term-collection loop of
`is_user_agent_a_bot`: the name of the LAST token (arbitrary when there are
no tokens, in which case it is never read because the candidate set is then
empty). -/
def lastTokenName (tokens : List ProductToken) : List Char :=
  ((tokens.getLast?).map ProductToken.name).getD []

/-- `is_user_agent_a_bot` (lines 250–282).  Note that the second regex on
line 279 is applied to `name` — the stale loop variable of the collection
loop, i.e. the LAST token's name — not to `term`. -/
def is_user_agent_a_bot (tokens : List ProductToken) : Bool :=
  (botCandidates tokens).any (fun term =>
    pyMatchBotDollar term || pyBotSurrounded (lastTokenName tokens))

/-! ## Engine resolver (`equivalent_major_browser`, lines 154–234) -/

/-- `get_major_version` (lines 154–155): `version_str.split(".")[0]`. -/
def get_major_version (v : List Char) : List Char := (v.splitOn '.').headD []

/-- `find_token` (lines 170–172): the first token whose name is among
`names`, if any. -/
def find_token (names : List (List Char)) (tokens : List ProductToken) :
    Option ProductToken :=
  tokens.find? (fun t => names.contains t.name)

/-- Whether `lit` occurs at the start of `s` (literal regex fragment). -/
def startsLit : List Char → List Char → Bool
  | [], _ => true
  | _ :: _, [] => false
  | p :: ps, c :: cs => p = c && startsLit ps cs

/-- The regex class `[0-9_]`. -/
def digitOrUnderscore (c : Char) : Bool := c.isDigit || c = '_'

/-- One attempt of `re.search("(?:iPhone|CPU) OS ([0-9_]+)", ·)` at the
current position: the group captured when the pattern matches here. -/
def iosGroupAt (s : List Char) : Option (List Char) :=
  if startsLit "iPhone OS ".data s then
    if ((s.drop 10).takeWhile digitOrUnderscore).isEmpty then none
    else some ((s.drop 10).takeWhile digitOrUnderscore)
  else if startsLit "CPU OS ".data s then
    if ((s.drop 7).takeWhile digitOrUnderscore).isEmpty then none
    else some ((s.drop 7).takeWhile digitOrUnderscore)
  else none

/-- `re.search("(?:iPhone|CPU) OS ([0-9_]+)", s)` (line 203): the group of
the leftmost match. -/
def iosSearch : List Char → Option (List Char)
  | [] => none
  | c :: rest =>
    match iosGroupAt (c :: rest) with
    | some g => some g
    | none => iosSearch rest

/-- One attempt of `re.search("Mac OS X ([0-9]+_[0-9_]+)", ·)` at the
current position. -/
def macGroupAt (s : List Char) : Option (List Char) :=
  if startsLit "Mac OS X ".data s then
    if ((s.drop 9).takeWhile Char.isDigit).isEmpty then none
    else
      if ((s.drop 9).drop ((s.drop 9).takeWhile Char.isDigit).length).head?
          = some '_' then
        if (((s.drop 9).drop (((s.drop 9).takeWhile Char.isDigit).length + 1)).takeWhile
            digitOrUnderscore).isEmpty then none
        else some (((s.drop 9).takeWhile Char.isDigit) ++ '_' ::
          ((s.drop 9).drop (((s.drop 9).takeWhile Char.isDigit).length + 1)).takeWhile
            digitOrUnderscore)
      else none
  else none

/-- `re.search("Mac OS X ([0-9]+_[0-9_]+)", s)` (line 211). -/
def macSearch : List Char → Option (List Char)
  | [] => none
  | c :: rest =>
    match macGroupAt (c :: rest) with
    | some g => some g
    | none => macSearch rest

/-- One attempt of `re.search("Trident/7.0; rv:([0-9.]+)", ·)` at the
current position.  The `.` after `7` in the pattern is an unescaped regex
wildcard: it matches any character except a newline. -/
def tridentGroupAt (s : List Char) : Option (List Char) :=
  if startsLit "Trident/7".data s then
    match (s.drop 9).head? with
    | some c =>
      if c ≠ '\n' && startsLit "0; rv:".data (s.drop 10) then
        if ((s.drop 16).takeWhile (fun c => c.isDigit || c = '.')).isEmpty then none
        else some ((s.drop 16).takeWhile (fun c => c.isDigit || c = '.'))
      else none
    | none => none
  else none

/-- `re.search("Trident/7.0; rv:([0-9.]+)", s)` (line 229). -/
def tridentSearch : List Char → Option (List Char)
  | [] => none
  | c :: rest =>
    match tridentGroupAt (c :: rest) with
    | some g => some g
    | none => tridentSearch rest

/-- `ios_version_match[1].replace("_", ".")` (line 205). -/
def pyReplaceUnderscoreDot (s : List Char) : List Char :=
  s.map (fun c => if c = '_' then '.' else c)

/-- Numeric value of a digit string. -/
def natOfDigits (s : List Char) : Nat :=
  s.foldl (fun a c => 10 * a + (c.toNat - 48)) 0

/-- After the first digit, Python `int()` accepts digits with single
underscores strictly between digits. -/
def pyIntDigitsRest : List Char → Bool
  | [] => true
  | c :: r =>
    if c = '_' then
      match r with
      | d :: r2 => d.isDigit && pyIntDigitsRest r2
      | [] => false
    else c.isDigit && pyIntDigitsRest r

/-- The unsigned part of Python `int()`. -/
def pyIntNat? : List Char → Option Nat
  | [] => none
  | c :: r =>
    if c.isDigit && pyIntDigitsRest r then
      some (natOfDigits ((c :: r).filter (fun d => d ≠ '_')))
    else none

/-- Python `int(s)` for a decimal string: surrounding whitespace, an
optional sign, then digits (single underscores allowed between digits);
`none` models `ValueError`. -/
def pyInt? (s : List Char) : Option Int :=
  if (pyStrip s).head? = some '-' then
    (pyIntNat? (pyStrip s).tail).map (fun n => -(n : Int))
  else if (pyStrip s).head? = some '+' then
    (pyIntNat? (pyStrip s).tail).map (fun n => (n : Int))
  else (pyIntNat? (pyStrip s)).map (fun n => (n : Int))

/-- Python tuple comparison `≤` on int pairs (lexicographic). -/
def tupLe (a b : Int × Int) : Bool := a.1 < b.1 || (a.1 = b.1 && a.2 ≤ b.2)

/-- Python tuple comparison `<` on int pairs (lexicographic). -/
def tupLt (a b : Int × Int) : Bool := a.1 < b.1 || (a.1 = b.1 && a.2 < b.2)

/-- The Trident branch and fall-through of `equivalent_major_browser`
(lines 229–234). -/
def tridentFallback (pinfo : List Char) :
    Except PyExn (Option (List Char × List Char)) :=
  match tridentSearch pinfo with
  | some g => .ok (some ("Internet Explorer".data, get_major_version g))
  | none => .ok none

/-- `equivalent_major_browser` (lines 158–234).  The returned version is a
string; the hard-coded Safari version `14` (an `int` in Python, line 223)
is modelled by its decimal rendering `"14"`, which is how it reaches the
CSV output.  In the macOS branch, when `(major, minor)` is below
`(10, 10)` neither branch of lines 218–223 assigns `safari_version`, so
line 224 raises `UnboundLocalError`.  When the matched minor component is
empty (e.g. `Mac OS X 10__3`), `int()` on line 216 raises `ValueError`. -/
def equivalent_major_browser (tokens : List ProductToken) :
    Except PyExn (Option (List Char × List Char)) :=
  match find_token ["Edge".data] tokens with
  | some t =>
    match t.version with
    | none => .error .attributeError
    | some ver => .ok (some ("Edge (Legacy)".data, get_major_version ver))
  | none =>
  match find_token ["Firefox".data] tokens with
  | some t =>
    match t.version with
    | none => .error .attributeError
    | some ver => .ok (some ("Firefox".data, get_major_version ver))
  | none =>
  match find_token ["Chrome".data, "Brave Chrome".data, "like Chrome".data,
      "HeadlessChrome".data] tokens with
  | some t =>
    match t.version with
    | none => .error .attributeError
    | some ver => .ok (some ("Chrome".data, get_major_version ver))
  | none =>
  match find_token ["Version".data] tokens with
  | some t =>
    match t.version with
    | none => .error .attributeError
    | some ver => .ok (some ("Safari".data, get_major_version ver))
  | none =>
  match (find_token ["Mozilla".data] tokens).bind ProductToken.comment with
  | none => .ok none
  | some pinfo =>
    if pinfo.isEmpty then .ok none
    else
      match iosSearch pinfo with
      | some g =>
        .ok (some ("Safari".data, get_major_version (pyReplaceUnderscoreDot g)))
      | none =>
      match macSearch pinfo with
      | some g =>
        match g.splitOn '_' with
        | maj :: minr :: _ =>
          match pyInt? maj, pyInt? minr with
          | some ma, some mi =>
            if tupLe (10, 10) (ma, mi) && tupLe (ma, mi) (10, 14) then
              if minr.isEmpty then tridentFallback pinfo
              else .ok (some ("Safari".data, minr))
            else if tupLt (10, 14) (ma, mi) then
              .ok (some ("Safari".data, "14".data))
            else .error .unboundLocal
          | _, _ => .error .valueError
        | _ => .error .valueError
      | none => tridentFallback pinfo

/-! ## Analysis tool (`analyze_stats.py`) -/

/-- A parsed query term (`BrowserVersionTerm`, lines 7–38). -/
structure BrowserVersionTerm where
  engine : List Char
  version : Int
  relation : List Char
deriving DecidableEq

/-- Python `str.lower()` (ASCII part). -/
def pyLower (s : List Char) : List Char := s.map Char.toLower

/-- `BrowserVersionTerm.matches` (lines 22–38). -/
def BrowserVersionTerm.matches (self : BrowserVersionTerm)
    (engine : List Char) (version : Int) : Bool :=
  if pyLower self.engine ≠ pyLower engine then false
  else if self.relation = ">".data then self.version < version
  else if self.relation = ">=".data then self.version ≤ version
  else if self.relation = "==".data then version = self.version
  else if self.relation = "<=".data then version ≤ self.version
  else if self.relation = "<".data then version < self.version
  else false

/-- The row loop of `main` (lines 77–99): fold over the CSV rows computing
`(n_valid_rows, n_skipped_rows, n_matches)`.  A row is skipped when it does
not have exactly five columns (tuple unpacking raises `ValueError`), when
`engine` or `engine_version` is empty (falsy), or when `int(engine_version)`
raises; otherwise it is valid and counted as a match when any query term
matches. -/
def analyze_rows (terms : List BrowserVersionTerm)
    (rows : List (List (List Char))) : Nat × Nat × Nat :=
  rows.foldl (fun acc row =>
    match row with
    | [_, _, engine, engine_version, _] =>
      if engine.isEmpty || engine_version.isEmpty then
        (acc.1, acc.2.1 + 1, acc.2.2)
      else
        match pyInt? engine_version with
        | none => (acc.1, acc.2.1 + 1, acc.2.2)
        | some n =>
          (acc.1 + 1, acc.2.1,
            acc.2.2 + (if terms.any (fun t => t.matches engine n) then 1 else 0))
    | _ => (acc.1, acc.2.1 + 1, acc.2.2)) (0, 0, 0)

/-- The report of `main` (lines 101–110).  Returns whether the
`"CSV file is empty"` diagnostic is printed (line 102) and then the two
percentages, or the exception raised while computing them: line 105
divides by `total_rows` and line 109 divides by `n_valid_rows`, with no
early return after the diagnostic, so a zero denominator raises
`ZeroDivisionError`.  Percentages are modelled exactly in `ℚ`. -/
def analyze_report (terms : List BrowserVersionTerm)
    (rows : List (List (List Char))) : Bool × Except PyExn (Rat × Rat) :=
  ((analyze_rows terms rows).1 = 0,
    if (analyze_rows terms rows).1 + (analyze_rows terms rows).2.1 = 0 then
      .error .zeroDivision
    else if (analyze_rows terms rows).1 = 0 then .error .zeroDivision
    else .ok
      ((((analyze_rows terms rows).1 : Rat) /
          (((analyze_rows terms rows).1 : Rat) + ((analyze_rows terms rows).2.1 : Rat)))
        * 100,
        (((analyze_rows terms rows).2.2 : Rat) / ((analyze_rows terms rows).1 : Rat))
        * 100))

/-! ## Helper lemmas about stripping and scanning -/

theorem dropWhile_eq_self_of_head {p : Char → Bool} {s : List Char}
    (h : ∀ c, s.head? = some c → p c = false) : s.dropWhile p = s := by
  cases s with
  | nil => rfl
  | cons a t => simp [List.dropWhile_cons, h a rfl]

theorem pyStrip_eq_self {s : List Char}
    (h1 : ∀ c, s.head? = some c → isPySpace c = false)
    (h2 : ∀ c, s.getLast? = some c → isPySpace c = false) : pyStrip s = s := by
  unfold pyStrip
  rw [dropWhile_eq_self_of_head h1]
  rw [dropWhile_eq_self_of_head (fun c hc => h2 c (by rwa [List.head?_reverse] at hc))]
  exact s.reverse_reverse

theorem pyStrip_cons_space (s : List Char) : pyStrip (' ' :: s) = pyStrip s := by
  unfold pyStrip
  rw [List.dropWhile_cons, if_pos (by decide)]

theorem eq_space_of_nameChar_pySpace {c : Char}
    (h1 : isNameChar c = true) (h2 : isPySpace c = true) : c = ' ' := by
  have hcases : c = ' ' ∨ c = '\t' ∨ c = '\n' ∨ c = '\r' ∨ c = '\x0b' ∨ c = '\x0c' := by
    simp only [isPySpace, Bool.or_eq_true, decide_eq_true_eq] at h2
    tauto
  rcases hcases with h | h | h | h | h | h
  · exact h
  all_goals (exfalso; subst h; revert h1; decide)

theorem takeWhile_append_of {p : Char → Bool} {l r : List Char}
    (hl : ∀ c ∈ l, p c = true) (hr : ∀ c, r.head? = some c → p c = false) :
    (l ++ r).takeWhile p = l := by
  induction l with
  | nil =>
    cases r with
    | nil => rfl
    | cons a t => simp [List.takeWhile_cons, hr a rfl]
  | cons a t ih =>
    simp only [List.cons_append, List.takeWhile_cons, hl a (List.mem_cons_self a t),
      if_true]
    rw [ih (fun c hc => hl c (List.mem_cons_of_mem a hc))]

theorem dropWhile_append_of {p : Char → Bool} {l r : List Char}
    (hl : ∀ c ∈ l, p c = true) (hr : ∀ c, r.head? = some c → p c = false) :
    (l ++ r).dropWhile p = r := by
  induction l with
  | nil => exact dropWhile_eq_self_of_head hr
  | cons a t ih =>
    simp only [List.cons_append, List.dropWhile_cons, hl a (List.mem_cons_self a t),
      if_true]
    exact ih (fun c hc => hl c (List.mem_cons_of_mem a hc))

/-- The name-and-version pattern on a string of the shape
`name ++ "/" ++ version ++ " " ++ rest`. -/
theorem matchNameVersion_mid {n v r : List Char}
    (hn : n ≠ []) (hnc : ∀ c ∈ n, isNameChar c = true)
    (hv : v ≠ []) (hvs : ∀ c ∈ v, c ≠ ' ') :
    matchNameVersion (n ++ '/' :: (v ++ ' ' :: r)) = some (n, some v, ' ' :: r) := by
  have hslash : ∀ c : Char, (('/' :: (v ++ ' ' :: r)).head? = some c) → isNameChar c = false := by
    intro c hc
    injection hc with hc
    subst hc
    decide
  have ht : (n ++ '/' :: (v ++ ' ' :: r)).takeWhile isNameChar = n :=
    takeWhile_append_of hnc hslash
  have hd : (n ++ '/' :: (v ++ ' ' :: r)).dropWhile isNameChar = '/' :: (v ++ ' ' :: r) :=
    dropWhile_append_of hnc hslash
  have hvtake : (v ++ ' ' :: r).takeWhile (fun c => c ≠ ' ') = v :=
    takeWhile_append_of (fun c hc => decide_eq_true (hvs c hc))
      (fun c hc => by injection hc with hc; subst hc; decide)
  have hvdrop : (v ++ ' ' :: r).dropWhile (fun c => c ≠ ' ') = ' ' :: r :=
    dropWhile_append_of (fun c hc => decide_eq_true (hvs c hc))
      (fun c hc => by injection hc with hc; subst hc; decide)
  unfold matchNameVersion
  rw [ht, hd]
  rw [if_neg (by simpa [List.isEmpty_iff] using hn)]
  rw [if_pos (show (('/' : Char) :: (v ++ ' ' :: r)).head? = some '/' from rfl)]
  simp only [List.tail_cons, hvtake, hvdrop]
  rw [if_neg (by simpa [List.isEmpty_iff] using hv)]

/-- The name-and-version pattern on a string of the shape
`name ++ "/" ++ version` ending there. -/
theorem matchNameVersion_last {n v : List Char}
    (hn : n ≠ []) (hnc : ∀ c ∈ n, isNameChar c = true)
    (hv : v ≠ []) (hvs : ∀ c ∈ v, c ≠ ' ') :
    matchNameVersion (n ++ '/' :: v) = some (n, some v, []) := by
  have hslash : ∀ c : Char, (('/' :: v).head? = some c) → isNameChar c = false := by
    intro c hc
    injection hc with hc
    subst hc
    decide
  have ht : (n ++ '/' :: v).takeWhile isNameChar = n := takeWhile_append_of hnc hslash
  have hd : (n ++ '/' :: v).dropWhile isNameChar = '/' :: v :=
    dropWhile_append_of hnc hslash
  have hvtake : (v ++ ([] : List Char)).takeWhile (fun c => c ≠ ' ') = v :=
    takeWhile_append_of (fun c hc => decide_eq_true (hvs c hc)) (by intro c hc; cases hc)
  have hvdrop : (v ++ ([] : List Char)).dropWhile (fun c => c ≠ ' ') = [] :=
    dropWhile_append_of (fun c hc => decide_eq_true (hvs c hc)) (by intro c hc; cases hc)
  rw [List.append_nil] at hvtake hvdrop
  unfold matchNameVersion
  rw [ht, hd]
  rw [if_neg (by simpa [List.isEmpty_iff] using hn)]
  rw [if_pos (show (('/' : Char) :: v).head? = some '/' from rfl)]
  simp only [List.tail_cons, hvtake, hvdrop]
  rw [if_neg (by simpa [List.isEmpty_iff] using hv)]

/-! ## Nesting-depth bookkeeping for the comment scan -/

/-- Contribution of one character to the parenthesis nesting depth. -/
def balance (c : Char) : Int := if c = '(' then 1 else if c = ')' then -1 else 0

/-- Net parenthesis balance of a string. -/
def netBal : List Char → Int
  | [] => 0
  | c :: s => balance c + netBal s

/-- `stayPos s d`: scanning `s` starting from depth `d`, the depth stays
strictly positive throughout (so the scan never stops inside `s`). -/
def stayPos : List Char → Int → Bool
  | [], _ => true
  | c :: cs, d => (decide (0 < d + balance c)) && stayPos cs (d + balance c)

/-- A comment body is well nested when the scan depth stays positive inside
it and its net parenthesis balance is zero: exactly the bodies whose
enclosing parentheses are matched by the depth scan. -/
def wellNested (s : List Char) : Bool := stayPos s 1 && decide (netBal s = 0)

theorem findClose_cons (a : Char) (cs : List Char) (d : Int) (i : Nat) :
    findClose (a :: cs) d i =
      if a = '(' then findClose cs (d + 1) (i + 1)
      else if a = ')' then
        (if d = 1 then some i else findClose cs (d - 1) (i + 1))
      else findClose cs d (i + 1) := rfl

theorem netBal_cons (a : Char) (s : List Char) :
    netBal (a :: s) = balance a + netBal s := rfl

theorem findClose_append {c rest : List Char} {d : Int} {i : Nat}
    (h : stayPos c d = true) :
    findClose (c ++ rest) d i = findClose rest (d + netBal c) (i + c.length) := by
  induction c generalizing d i with
  | nil => simp [netBal]
  | cons a t ih =>
    simp only [stayPos, Bool.and_eq_true, decide_eq_true_eq] at h
    obtain ⟨h1, h2⟩ := h
    rw [List.cons_append, findClose_cons]
    by_cases ha : a = '('
    · subst ha
      have hbal : balance '(' = (1 : Int) := rfl
      rw [hbal] at h1 h2
      rw [if_pos rfl, ih h2, netBal_cons, hbal, List.length_cons]
      have e1 : d + 1 + netBal t = d + (1 + netBal t) := by omega
      have e2 : i + 1 + t.length = i + (t.length + 1) := by omega
      rw [e1, e2]
    · by_cases hb : a = ')'
      · subst hb
        have hbal : balance ')' = (-1 : Int) := rfl
        rw [hbal] at h1 h2
        have e0 : d + (-1 : Int) = d - 1 := by omega
        rw [e0] at h2
        rw [if_neg (by decide), if_pos rfl,
          if_neg (show ¬(d = 1) by omega), ih h2, netBal_cons, hbal, List.length_cons]
        have e1 : d - 1 + netBal t = d + (-1 + netBal t) := by omega
        have e2 : i + 1 + t.length = i + (t.length + 1) := by omega
        rw [e1, e2]
      · have hbal : balance a = (0 : Int) := by simp [balance, ha, hb]
        rw [hbal] at h1 h2
        have e0 : d + (0 : Int) = d := by omega
        rw [e0] at h2
        rw [if_neg ha, if_neg hb, ih h2, netBal_cons, hbal, List.length_cons]
        have e1 : d + netBal t = d + (0 + netBal t) := by omega
        have e2 : i + 1 + t.length = i + (t.length + 1) := by omega
        rw [← e1, e2]

/-- A well-nested comment body `c` followed by `)` closes at
position `1 + c.length`. -/
theorem findClose_closes {c rest : List Char}
    (h : stayPos c 1 = true) (hnet : netBal c = 0) :
    findClose (c ++ ')' :: rest) 1 1 = some (1 + c.length) := by
  rw [findClose_append h, hnet]
  show findClose (')' :: rest) (1 + 0) (1 + c.length) = _
  norm_num
  unfold findClose
  rw [if_neg (by decide), if_pos rfl, if_pos rfl]

/-- One full parse step for a token whose comment is well nested: the
comment is the body between the matching parentheses and parsing continues
after the closing parenthesis. -/
theorem parseUAGo_comment_step {s : List Char} {posSt : Option Nat}
    {n : List Char} {v : Option (List Char)} {r0 c r : List Char}
    (h : matchNameVersion s = some (n, v, r0))
    (hrest : pyStrip r0 = '(' :: (c ++ ')' :: r))
    (hw : stayPos c 1 = true) (hnet : netBal c = 0) :
    parseUAGo s posSt =
      (parseUAGo (pyStrip r) (some (1 + c.length))).map
        (fun ts => ⟨n, v, some c⟩ :: ts) := by
  have hfc : (findClose ((pyStrip r0).drop 1) 1 1).getD ((pyStrip r0).length - 1)
      = 1 + c.length := by
    rw [hrest, List.drop_succ_cons, List.drop_zero, findClose_closes hw hnet]
    rfl
  have hc : (pyStrip r0).head? = some '(' := by rw [hrest]; rfl
  have h2 : 2 ≤ (pyStrip r0).length := by
    rw [hrest]
    simp [List.length_cons, List.length_append]
    omega
  rw [parseUAGo_comment h hc h2 hfc]
  have hcomment : ((pyStrip r0).drop 1).take (1 + c.length - 1) = c := by
    rw [hrest, List.drop_succ_cons, List.drop_zero]
    have : 1 + c.length - 1 = c.length := by omega
    rw [this, List.take_left]
  have hafter : (pyStrip r0).drop (1 + c.length + 1) = r := by
    rw [hrest]
    have e : 1 + c.length + 1 = ((c ++ [')']).length) + 1 := by
      simp [List.length_append]; omega
    rw [e, List.drop_succ_cons]
    have e2 : c ++ ')' :: r = (c ++ [')']) ++ r := by simp
    rw [e2, List.drop_left]
  rw [hcomment, hafter]

/-- One full parse step for a token whose comment scan never returns to
depth `0` (unterminated comment, at least one character after the `(`):
the comment is the rest of the string with its final character removed and
this token ends the parse. -/
theorem parseUAGo_unterminated {s : List Char} {posSt : Option Nat}
    {n : List Char} {v : Option (List Char)} {r0 t : List Char}
    (h : matchNameVersion s = some (n, v, r0))
    (ht : pyStrip r0 = '(' :: t) (hne : t ≠ [])
    (hfc : findClose t 1 1 = none) :
    parseUAGo s posSt = .ok [⟨n, v, some t.dropLast⟩] := by
  have h2 : 2 ≤ (pyStrip r0).length := by
    rw [ht]
    cases t with
    | nil => exact absurd rfl hne
    | cons a u => simp only [List.length_cons]; omega
  have hp : (findClose ((pyStrip r0).drop 1) 1 1).getD ((pyStrip r0).length - 1)
      = t.length := by
    rw [ht, List.drop_succ_cons, List.drop_zero, hfc]
    rfl
  rw [parseUAGo_comment h (by rw [ht]; rfl) h2 hp]
  have hdrop : (pyStrip r0).drop (t.length + 1) = [] := by
    rw [ht, List.drop_succ_cons, List.drop_length]
  rw [hdrop, show pyStrip ([] : List Char) = [] from rfl,
    parseUAGo_eq_nil (show matchNameVersion ([] : List Char) = none from rfl)]
  have hcomment : ((pyStrip r0).drop 1).take (t.length - 1) = t.dropLast := by
    rw [ht, List.drop_succ_cons, List.drop_zero, List.dropLast_eq_take]
  rw [hcomment]
  rfl

/-! ## The canonical two-token header shape (for the round-trip property) -/

/-- The header `Name/Version (Comment) Name2/Version2` as a character
list. -/
def twoTokenShape (n1 v1 c1 n2 v2 : List Char) : List Char :=
  n1 ++ '/' :: (v1 ++ ' ' :: ('(' :: (c1 ++ ')' :: (' ' :: (n2 ++ '/' :: v2)))))

/-- Re-format one token as `name[/version][ (comment)]`. -/
def formatToken (t : ProductToken) : List Char :=
  t.name ++
    (match t.version with
     | some v => '/' :: v
     | none => []) ++
    (match t.comment with
     | some c => ' ' :: '(' :: (c ++ [')'])
     | none => [])

/-- Re-format a token sequence, joining the tokens with single spaces. -/
def formatTokens (ts : List ProductToken) : List Char :=
  List.intercalate [' '] (ts.map formatToken)

theorem ne_space_of_not_pySpace {c : Char} (h : isPySpace c = false) : c ≠ ' ' :=
  fun e => absurd h (by subst e; decide)

theorem isPySpace_false_of_nameChar_ne_space {c : Char}
    (h1 : isNameChar c = true) (h2 : c ≠ ' ') : isPySpace c = false := by
  by_contra hcon
  rw [Bool.not_eq_false] at hcon
  exact h2 (eq_space_of_nameChar_pySpace h1 hcon)

theorem formatTokens_two (n1 v1 c1 n2 v2 : List Char) :
    formatTokens [⟨n1, some v1, some c1⟩, ⟨n2, some v2, none⟩]
      = twoTokenShape n1 v1 c1 n2 v2 := by
  simp [formatTokens, formatToken, twoTokenShape, List.intercalate]

/-- Parsing the canonical two-token header extracts the names, versions and
comment exactly, in order. -/
theorem parse_shape_two {n1 v1 c1 n2 v2 : List Char}
    (hn1 : n1 ≠ []) (hn1c : ∀ ch ∈ n1, isNameChar ch = true)
    (hn1h : n1.head? ≠ some ' ')
    (hv1 : v1 ≠ []) (hv1w : ∀ ch ∈ v1, isPySpace ch = false)
    (hc1 : stayPos c1 1 = true) (hc1n : netBal c1 = 0)
    (hn2 : n2 ≠ []) (hn2c : ∀ ch ∈ n2, isNameChar ch = true)
    (hn2h : n2.head? ≠ some ' ')
    (hv2 : v2 ≠ []) (hv2w : ∀ ch ∈ v2, isPySpace ch = false) :
    parseUAGo (pyStrip (twoTokenShape n1 v1 c1 n2 v2)) none
      = .ok [⟨n1, some v1, some c1⟩, ⟨n2, some v2, none⟩] := by
  obtain ⟨x2, hx2⟩ : ∃ x, v2.getLast? = some x := by
    cases hl : v2.getLast? with
    | some x => exact ⟨x, rfl⟩
    | none => exact absurd (List.getLast?_eq_none_iff.mp hl) hv2
  have hx2w : isPySpace x2 = false := hv2w x2 (List.mem_of_getLast?_eq_some hx2)
  -- the header neither starts nor ends with whitespace, so the initial
  -- strip is the identity
  have hstrip : pyStrip (twoTokenShape n1 v1 c1 n2 v2) = twoTokenShape n1 v1 c1 n2 v2 := by
    apply pyStrip_eq_self
    · intro c hc
      cases n1 with
      | nil => exact absurd rfl hn1
      | cons a t =>
        have hac : a = c := by
          simpa [twoTokenShape, List.cons_append] using hc
        subst hac
        exact isPySpace_false_of_nameChar_ne_space
          (hn1c a (List.mem_cons_self a t))
          (fun e => hn1h (by rw [List.head?_cons, e]))
    · intro c hc
      have hlast : (twoTokenShape n1 v1 c1 n2 v2).getLast? = some x2 := by
        simp [twoTokenShape, List.getLast?_append, List.getLast?_cons, hx2]
      rw [hlast] at hc
      injection hc with hc
      subst hc
      exact hx2w
  have hm1 : matchNameVersion (twoTokenShape n1 v1 c1 n2 v2)
      = some (n1, some v1,
          ' ' :: ('(' :: (c1 ++ ')' :: (' ' :: (n2 ++ '/' :: v2))))) :=
    matchNameVersion_mid hn1 hn1c hv1
      (fun c hc => ne_space_of_not_pySpace (hv1w c hc))
  have hr0 : pyStrip (' ' :: ('(' :: (c1 ++ ')' :: (' ' :: (n2 ++ '/' :: v2)))))
      = '(' :: (c1 ++ ')' :: (' ' :: (n2 ++ '/' :: v2))) := by
    rw [pyStrip_cons_space]
    apply pyStrip_eq_self
    · intro c hc
      have hpc : '(' = c := by simpa using hc
      subst hpc
      decide
    · intro c hc
      have hlast : ('(' :: (c1 ++ ')' :: (' ' :: (n2 ++ '/' :: v2)))).getLast? = some x2 := by
        simp [List.getLast?_append, List.getLast?_cons, hx2]
      rw [hlast] at hc
      injection hc with hc
      subst hc
      exact hx2w
  rw [hstrip, parseUAGo_comment_step hm1 hr0 hc1 hc1n]
  have hr2 : pyStrip (' ' :: (n2 ++ '/' :: v2)) = n2 ++ '/' :: v2 := by
    rw [pyStrip_cons_space]
    apply pyStrip_eq_self
    · intro c hc
      cases n2 with
      | nil => exact absurd rfl hn2
      | cons a t =>
        have hac : a = c := by simpa [List.cons_append] using hc
        subst hac
        exact isPySpace_false_of_nameChar_ne_space
          (hn2c a (List.mem_cons_self a t))
          (fun e => hn2h (by rw [List.head?_cons, e]))
    · intro c hc
      have hlast : (n2 ++ '/' :: v2).getLast? = some x2 := by
        simp [List.getLast?_append, List.getLast?_cons, hx2]
      rw [hlast] at hc
      injection hc with hc
      subst hc
      exact hx2w
  rw [hr2]
  have hm2 : matchNameVersion (n2 ++ '/' :: v2) = some (n2, some v2, []) :=
    matchNameVersion_last hn2 hn2c hv2
      (fun c hc => ne_space_of_not_pySpace (hv2w c hc))
  rw [parseUAGo_noComment hm2 (by rw [show pyStrip ([] : List Char) = [] from rfl]; decide)]
  rw [show pyStrip ([] : List Char) = [] from rfl,
    parseUAGo_eq_nil (show matchNameVersion ([] : List Char) = none from rfl)]
  rfl

/-! ## Helper lemmas for the ranker -/

theorem mergeSort_pair {α : Type} (a b : α) (le : α → α → Bool) :
    List.mergeSort [a, b] le = if le a b then [a, b] else [b, a] := by
  rw [List.mergeSort]
  simp [List.merge]

theorem token_priority_of_not_mem {t : ProductToken}
    (h : t.name ∉ generic_product_names) : token_priority t = -1 := by
  unfold token_priority
  have hnone : generic_product_names.indexOf? t.name = none := by
    unfold List.indexOf?
    rw [List.findIdx?_eq_none_iff]
    intro x hx
    simp only [beq_eq_false_iff_ne, ne_eq]
    exact fun e => h (e ▸ hx)
  rw [hnone]

theorem token_priority_pos_of_mem {t : ProductToken}
    (h : t.name ∈ generic_product_names) : 1 ≤ token_priority t := by
  unfold token_priority
  cases hidx : generic_product_names.indexOf? t.name with
  | none =>
    exfalso
    unfold List.indexOf? at hidx
    rw [List.findIdx?_eq_none_iff] at hidx
    have := hidx t.name h
    simp at this
  | some i =>
    have hi : i < generic_product_names.length := by
      unfold List.indexOf? at hidx
      rw [List.findIdx?_eq_some_iff_findIdx_eq] at hidx
      exact hidx.1
    show 1 ≤ (generic_product_names.length : Int) - (i : Int)
    have h7 : generic_product_names.length = 7 := rfl
    rw [h7] at hi ⊢
    omega

/-! ## Helper lemmas for the bot classifier -/

theorem any_or_const {α : Type} (l : List α) (p : α → Bool) (q : Bool) :
    l.any (fun x => p x || q) = (l.any p || (!l.isEmpty && q)) := by
  induction l with
  | nil => simp
  | cons a t ih =>
    cases hq : q <;> cases hp : p a <;>
      simp [List.any_cons, ih, hp, hq]

/-! ## Claims -/

/-- C1 (amended): `sort_user_agent_tokens` is a stable sort of the tokens by
the key `token_priority`: the result is a permutation of the input, sorted
by ascending priority, and tokens with equal priority keep their relative
input order (the sub-list with any fixed priority is unchanged).  Tokens
whose name is absent from `generic_product_names` have priority `-1` and
every listed name has priority at least `1`, so unlisted tokens precede all
listed ones; but among the listed names the order is by DESCENDING table
position: the first table entry "Mozilla" has the largest key `7` and sorts
last (most generic), while the last entry "Chrome" has key `1` and sorts
first among the listed names. -/
theorem c1_rank_characterization :
    (∀ ts : List ProductToken,
      List.Perm (sort_user_agent_tokens ts) ts
      ∧ List.Pairwise (fun a b => token_priority a ≤ token_priority b)
          (sort_user_agent_tokens ts)
      ∧ ∀ k : Int,
          (sort_user_agent_tokens ts).filter (fun t => token_priority t == k)
            = ts.filter (fun t => token_priority t == k))
    ∧ (∀ t : ProductToken, t.name ∉ generic_product_names → token_priority t = -1)
    ∧ (∀ t : ProductToken, t.name ∈ generic_product_names → 1 ≤ token_priority t)
    ∧ token_priority ⟨"Mozilla".data, none, none⟩ = 7
    ∧ token_priority ⟨"Chrome".data, none, none⟩ = 1 := by
  have htrans : ∀ a b c : ProductToken,
      (fun a b => decide (token_priority a ≤ token_priority b)) a b →
      (fun a b => decide (token_priority a ≤ token_priority b)) b c →
      (fun a b => decide (token_priority a ≤ token_priority b)) a c := by
    intro a b c h1 h2
    simp only [decide_eq_true_eq] at h1 h2 ⊢
    omega
  have htotal : ∀ a b : ProductToken,
      ((fun a b => decide (token_priority a ≤ token_priority b)) a b ||
       (fun a b => decide (token_priority a ≤ token_priority b)) b a) := by
    intro a b
    simp only [Bool.or_eq_true, decide_eq_true_eq]
    omega
  refine ⟨?_, fun t h => token_priority_of_not_mem h,
    fun t h => token_priority_pos_of_mem h, by decide, by decide⟩
  intro ts
  refine ⟨List.mergeSort_perm ts _, ?_, ?_⟩
  · exact (List.sorted_mergeSort htrans htotal ts).imp
      (fun {a b} hab => by simpa using hab)
  · intro k
    have hmem : ∀ x ∈ ts.filter (fun t => token_priority t == k),
        token_priority x = k := by
      intro x hx
      have := (List.mem_filter.mp hx).2
      simpa using this
    have hpw : (ts.filter (fun t => token_priority t == k)).Pairwise
        (fun a b => (fun a b => decide (token_priority a ≤ token_priority b)) a b) := by
      apply List.pairwise_of_forall_mem_list
      intro a ha b hb
      simp only [decide_eq_true_eq, hmem a ha, hmem b hb]
      omega
    have hsub : List.Sublist (ts.filter (fun t => token_priority t == k))
        (List.mergeSort ts (fun a b => decide (token_priority a ≤ token_priority b))) :=
      List.sublist_mergeSort htrans htotal hpw (List.filter_sublist ts)
    have hsub2 : List.Sublist (ts.filter (fun t => token_priority t == k))
        ((List.mergeSort ts (fun a b => decide (token_priority a ≤ token_priority b))).filter
            (fun t => token_priority t == k)) := by
      simpa [List.filter_filter, Bool.and_self] using
        hsub.filter (fun t => token_priority t == k)
    have hlen : ((List.mergeSort ts
          (fun a b => decide (token_priority a ≤ token_priority b))).filter
            (fun t => token_priority t == k)).length
        = (ts.filter (fun t => token_priority t == k)).length :=
      ((List.mergeSort_perm ts _).filter _).length_eq
    exact (hsub2.eq_of_length hlen.symm).symm

/-- C1 counterexample: the claim as stated says tokens with listed names
sort by table position with the last entry "Chrome" last; on the code,
sorting `[Mozilla, Chrome]` yields `[Chrome, Mozilla]` — Chrome sorts
FIRST among listed names, not last. -/
theorem c1_counterexample :
    sort_user_agent_tokens
        [⟨"Mozilla".data, none, none⟩, ⟨"Chrome".data, none, none⟩]
      = [⟨"Chrome".data, none, none⟩, ⟨"Mozilla".data, none, none⟩]
    ∧ ([⟨"Chrome".data, none, none⟩, ⟨"Mozilla".data, none, none⟩]
        : List ProductToken)
      ≠ [⟨"Mozilla".data, none, none⟩, ⟨"Chrome".data, none, none⟩] := by
  constructor
  · unfold sort_user_agent_tokens
    rw [mergeSort_pair, if_neg (by decide)]
  · decide

/-- C1 witness: the characterization applied to the two-token input
`[Mozilla, Chrome]`. -/
theorem c1_rank_characterization_witness :
    List.Perm
      (sort_user_agent_tokens
        [⟨"Mozilla".data, none, none⟩, ⟨"Chrome".data, none, none⟩])
      [⟨"Mozilla".data, none, none⟩, ⟨"Chrome".data, none, none⟩] :=
  (c1_rank_characterization.1
    [⟨"Mozilla".data, none, none⟩, ⟨"Chrome".data, none, none⟩]).1

/-- C2: the macOS desktop-mode rule of `equivalent_major_browser`.  In range
`[10.10, 10.14]` the inferred Safari version is the minor component
(`Mac OS X 10_12_6` gives `("Safari", "12")`); above the range the version
is the frozen `14` (`Mac OS X 11_0` gives `("Safari", "14")`); but BELOW
the range the code does not fall through to the Trident rule as the claim
states: `safari_version` is never assigned and line 224 raises
`UnboundLocalError` (evaluated here on `Mac OS X 10_9_5`). -/
theorem c2_macos_rule_evaluations :
    equivalent_major_browser [⟨"Mozilla".data, some "5.0".data,
        some "Macintosh; Intel Mac OS X 10_12_6".data⟩]
      = .ok (some ("Safari".data, "12".data))
    ∧ equivalent_major_browser [⟨"Mozilla".data, some "5.0".data,
        some "Macintosh; Intel Mac OS X 11_0".data⟩]
      = .ok (some ("Safari".data, "14".data))
    ∧ equivalent_major_browser [⟨"Mozilla".data, some "5.0".data,
        some "Macintosh; Intel Mac OS X 10_9_5".data⟩]
      = .error .unboundLocal := by
  refine ⟨by decide, by decide, by decide⟩

/-- C3 (amended): `is_user_agent_a_bot` returns true iff some candidate term
(every token name plus the processed comment sub-terms) matches
`.*bot$` case-insensitively, OR the token list is non-empty and the LAST
token's name (the stale loop variable `name`, not "some token's name")
contains `bot` surrounded by non-letters case-insensitively.  In
particular it is true for a token named "Googlebot", for a comment
sub-term "Googlebot/2.1", and for a sole token named "Pingdom_bot_1.0",
and false for a plain Chrome desktop user agent. -/
theorem c3_isBot_characterization :
    (∀ tokens : List ProductToken,
      is_user_agent_a_bot tokens = true ↔
        ((∃ t ∈ botCandidates tokens, pyMatchBotDollar t = true) ∨
          (tokens ≠ [] ∧ pyBotSurrounded (lastTokenName tokens) = true)))
    ∧ is_user_agent_a_bot [⟨"Googlebot".data, some "2.1".data, none⟩] = true
    ∧ is_user_agent_a_bot [⟨"Mozilla".data, some "5.0".data,
        some "compatible; Googlebot/2.1; MoreInfo".data⟩] = true
    ∧ is_user_agent_a_bot [⟨"Pingdom_bot_1.0".data, none, none⟩] = true
    ∧ is_user_agent_a_bot
        [⟨"Mozilla".data, some "5.0".data, some "Windows NT 10.0; Win64; x64".data⟩,
         ⟨"AppleWebKit".data, some "537.36".data, some "KHTML, like Gecko".data⟩,
         ⟨"Chrome".data, some "90.0.4430.212".data, none⟩,
         ⟨"Safari".data, some "537.36".data, none⟩] = false := by
  refine ⟨?_, by decide, by decide, by decide, by decide⟩
  intro tokens
  unfold is_user_agent_a_bot
  rw [any_or_const]
  have hiff : ((!(botCandidates tokens).isEmpty) = true) ↔ tokens ≠ [] := by
    cases tokens <;> simp [botCandidates]
  simp only [Bool.or_eq_true, Bool.and_eq_true, List.any_eq_true, hiff]

/-- C3 counterexample: the claim (with "some token's name") predicts `true`
for `[Pingdom_bot_1.0, Mozilla]` since the first token's name contains
`_bot_`; the code checks only the LAST token's name and returns `false`. -/
theorem c3_counterexample :
    is_user_agent_a_bot [⟨"Pingdom_bot_1.0".data, none, none⟩,
        ⟨"Mozilla".data, some "5.0".data, none⟩] = false
    ∧ pyBotSurrounded "Pingdom_bot_1.0".data = true
    ∧ (⟨"Pingdom_bot_1.0".data, none, none⟩ : ProductToken)
        ∈ ([⟨"Pingdom_bot_1.0".data, none, none⟩,
            ⟨"Mozilla".data, some "5.0".data, none⟩] : List ProductToken) := by
  refine ⟨by decide, by decide, by decide⟩

/-- C3 witness: the characterization applied to the single-token
"Googlebot" input. -/
theorem c3_isBot_characterization_witness :
    is_user_agent_a_bot [⟨"Googlebot".data, some "2.1".data, none⟩] = true :=
  c3_isBot_characterization.2.1

/-- C4: `parse_user_agent` is NOT crash-free: on the header `"A ("` the
remaining string at the comment stage is exactly `"("`, the scan loop body
never runs, and the read of the loop variable `pos` on line 103 raises
`NameError` — the claim that parsing never raises is wrong, and the code
plainly intends to stop early instead (a slip, hence a code bug). -/
theorem c4_unterminated_lone_paren_crash :
    parse_user_agent "A (" = .error .unboundLocal :=
  @parseUAGo_lparen_none "A (".data "A ".data none "(".data
    (by decide) (by decide) (by decide)

/-- C5 (amended): for a token whose comment is opened by `(` with at least
one following character and whose nesting depth never returns to `0`, the
comment is the remainder after the `(` WITH ITS FINAL CHARACTER REMOVED
(the loop variable stops at the last index without consuming it), and that
token is the last one produced.  Stated on the parse loop `parseUAGo`, so
it covers the token at any position of any header. -/
theorem c5_unterminated_comment {s : List Char} {posSt : Option Nat}
    {n : List Char} {v : Option (List Char)} {r0 t : List Char}
    (h : matchNameVersion s = some (n, v, r0))
    (ht : pyStrip r0 = '(' :: t) (hne : t ≠ [])
    (hfc : findClose t 1 1 = none) :
    parseUAGo s posSt = .ok [⟨n, v, some t.dropLast⟩] :=
  parseUAGo_unterminated h ht hne hfc

/-- C5 counterexample: the claim as stated says the comment is the ENTIRE
remainder after `(`; on `"A (abc"` the code produces the comment `"ab"`,
not `"abc"`. -/
theorem c5_counterexample :
    parse_user_agent "A (abc" = .ok [⟨"A ".data, none, some "ab".data⟩]
    ∧ ("ab".data : List Char) ≠ "abc".data := by
  refine ⟨?_, by decide⟩
  exact @parseUAGo_unterminated "A (abc".data none "A ".data none "(abc".data
    "abc".data (by decide) (by decide) (by decide) (by decide)

/-- C5 witness: the amended claim applied to the header `"A (abc"`. -/
theorem c5_unterminated_comment_witness :
    parseUAGo "A (abc".data none = .ok [⟨"A ".data, none, some "ab".data⟩] :=
  @c5_unterminated_comment "A (abc".data none "A ".data none "(abc".data
    "abc".data (by decide) (by decide) (by decide) (by decide)

/-- C6 (amended): parsing the canonical header
`Name/Version (Comment) Name2/Version2` — names of word characters, spaces
and dots NOT BEGINNING WITH A SPACE (the initial and inter-token strips
would otherwise remove it), versions without WHITESPACE (a trailing tab or
newline would otherwise be stripped), comment well nested — extracts the
two tokens exactly in order, and re-formatting them with
`name + "/" + version (+ " (" + comment + ")")` joined by single spaces
yields a string that parses to the same token sequence. -/
theorem c6_roundtrip {n1 v1 c1 n2 v2 : List Char}
    (hn1 : n1 ≠ []) (hn1c : ∀ ch ∈ n1, isNameChar ch = true)
    (hn1h : n1.head? ≠ some ' ')
    (hv1 : v1 ≠ []) (hv1w : ∀ ch ∈ v1, isPySpace ch = false)
    (hc1 : wellNested c1 = true)
    (hn2 : n2 ≠ []) (hn2c : ∀ ch ∈ n2, isNameChar ch = true)
    (hn2h : n2.head? ≠ some ' ')
    (hv2 : v2 ≠ []) (hv2w : ∀ ch ∈ v2, isPySpace ch = false) :
    parse_user_agent (String.mk (twoTokenShape n1 v1 c1 n2 v2))
      = .ok [⟨n1, some v1, some c1⟩, ⟨n2, some v2, none⟩]
    ∧ parse_user_agent
        (String.mk (formatTokens [⟨n1, some v1, some c1⟩, ⟨n2, some v2, none⟩]))
      = .ok [⟨n1, some v1, some c1⟩, ⟨n2, some v2, none⟩] := by
  have hw : stayPos c1 1 = true ∧ netBal c1 = 0 := by
    have hh := hc1
    unfold wellNested at hh
    rw [Bool.and_eq_true, decide_eq_true_eq] at hh
    exact hh
  have h := parse_shape_two hn1 hn1c hn1h hv1 hv1w hw.1 hw.2 hn2 hn2c hn2h hv2 hv2w
  refine ⟨h, ?_⟩
  show parseUAGo
    (pyStrip (formatTokens [⟨n1, some v1, some c1⟩, ⟨n2, some v2, none⟩])) none = _
  rw [formatTokens_two]
  exact h

/-- C6 counterexample: the header `" A/1 (c) B/2"` has the claimed shape
with `Name = " A"` (word characters and spaces), yet the first token's name
is extracted as `"A"`, not `" A"` — extraction is not exact because the
leading strip removes the space. -/
theorem c6_counterexample :
    parse_user_agent " A/1 (c) B/2"
      = .ok [⟨"A".data, some "1".data, some "c".data⟩,
             ⟨"B".data, some "2".data, none⟩]
    ∧ ("A".data : List Char) ≠ " A".data
    ∧ (∀ ch ∈ " A".data, isNameChar ch = true) := by
  refine ⟨?_, by decide, by decide⟩
  have h := @parse_shape_two "A".data "1".data "c".data "B".data "2".data
    (by decide) (by decide) (by decide) (by decide) (by decide) (by decide)
    (by decide) (by decide) (by decide) (by decide) (by decide) (by decide)
  exact h

/-- C6 witness: the amended round trip on
`"Mozilla/5.0 (X11; Linux x86_64) Firefox/89.0"`. -/
theorem c6_roundtrip_witness :
    parse_user_agent (String.mk (twoTokenShape "Mozilla".data "5.0".data
        "X11; Linux x86_64".data "Firefox".data "89.0".data))
      = .ok [⟨"Mozilla".data, some "5.0".data, some "X11; Linux x86_64".data⟩,
             ⟨"Firefox".data, some "89.0".data, none⟩] :=
  (c6_roundtrip (by decide) (by decide) (by decide) (by decide) (by decide)
    (by decide) (by decide) (by decide) (by decide) (by decide) (by decide)).1

/-- C7 (amended): when the FIRST token named "Edge" has a version with
major segment "18" (with duplicate "Edge" tokens, `find_token` uses the
first one, which is what the claim's "a token named Edge with major 18"
overlooks) and a "Chrome" token with major "80" is present anywhere,
`equivalent_major_browser` returns `("Edge (Legacy)", "18")` and not a
Chrome result — rule 1 is applied before rule 3 regardless of token
positions. -/
theorem c7_edge_precedence {tokens : List ProductToken} {t : ProductToken}
    {ver : List Char}
    (hfind : find_token ["Edge".data] tokens = some t)
    (hver : t.version = some ver)
    (hmaj : get_major_version ver = "18".data)
    (hchrome : ∃ ct ∈ tokens, ct.name = "Chrome".data ∧
        ∃ cv, ct.version = some cv ∧ get_major_version cv = "80".data) :
    equivalent_major_browser tokens
      = .ok (some ("Edge (Legacy)".data, "18".data)) := by
  simp only [equivalent_major_browser, hfind, hver, hmaj]

/-- C7 counterexample: with two "Edge" tokens (majors 25 and 18) and a
"Chrome" token (major 80) the premise of the claim as stated holds — the
sequence contains an Edge token with major 18 — yet the result is
`("Edge (Legacy)", "25")`, not `("Edge (Legacy)", "18")`. -/
theorem c7_counterexample :
    equivalent_major_browser [⟨"Edge".data, some "25.1".data, none⟩,
        ⟨"Edge".data, some "18.0".data, none⟩,
        ⟨"Chrome".data, some "80.0".data, none⟩]
      = .ok (some ("Edge (Legacy)".data, "25".data))
    ∧ ("25".data : List Char) ≠ "18".data
    ∧ get_major_version "18.0".data = "18".data
    ∧ get_major_version "80.0".data = "80".data := by
  refine ⟨by decide, by decide, by decide, by decide⟩

/-- C7 witness: a Chrome-80 token first and an Edge-18 token second. -/
theorem c7_edge_precedence_witness :
    equivalent_major_browser [⟨"Chrome".data, some "80.0.3987".data, none⟩,
        ⟨"Edge".data, some "18.17763".data, none⟩]
      = .ok (some ("Edge (Legacy)".data, "18".data)) :=
  @c7_edge_precedence
    [⟨"Chrome".data, some "80.0.3987".data, none⟩,
     ⟨"Edge".data, some "18.17763".data, none⟩]
    ⟨"Edge".data, some "18.17763".data, none⟩ "18.17763".data
    (by decide) rfl (by decide)
    ⟨⟨"Chrome".data, some "80.0.3987".data, none⟩, by decide, rfl,
      "80.0.3987".data, rfl, by decide⟩

/-- C8: with a syntactically valid query and zero valid rows, the analysis
tool prints the "CSV file is empty" diagnostic but then DOES hit a
`ZeroDivisionError` (at `match_percent`, and already at `valid_percent`
when the file has no rows at all), because `main` does not return after
the diagnostic — the claim's "terminates without a division-by-zero
fault" is the intended behavior and the code is a slip. -/
theorem c8_empty_csv_crash :
    analyze_report [⟨"chrome".data, 90, ">=".data⟩] []
      = (true, .error .zeroDivision)
    ∧ (∀ (terms : List BrowserVersionTerm) (rows : List (List (List Char))),
        (analyze_rows terms rows).1 = 0 →
        analyze_report terms rows = (true, .error .zeroDivision)) := by
  constructor
  · decide
  · intro terms rows h
    unfold analyze_report
    rw [h]
    by_cases hs : (analyze_rows terms rows).2.1 = 0
    · rw [hs]; rfl
    · rw [if_neg (by omega), if_pos rfl]; rfl

/-- C8 witness: the general statement applied to a CSV whose single row is
skipped (wrong column count). -/
theorem c8_empty_csv_crash_witness :
    analyze_report [] [["x".data]] = (true, .error .zeroDivision) :=
  c8_empty_csv_crash.2 [] [["x".data]] (by decide)

/-- C9: a product name followed by a parenthesized comment with balanced
nested parentheses yields a single token for that product whose comment is
the full text between the outermost parentheses, inner parentheses
preserved; parsing continues after the closing parenthesis.  Stated on the
parse loop `parseUAGo`, so it covers the token at any position of any
header. -/
theorem c9_nested_comment {s : List Char} {posSt : Option Nat}
    {n : List Char} {v : Option (List Char)} {r0 c r : List Char}
    (h : matchNameVersion s = some (n, v, r0))
    (hrest : pyStrip r0 = '(' :: (c ++ ')' :: r))
    (hwn : wellNested c = true) :
    parseUAGo s posSt =
      (parseUAGo (pyStrip r) (some (1 + c.length))).map
        (fun ts => ⟨n, v, some c⟩ :: ts) := by
  unfold wellNested at hwn
  rw [Bool.and_eq_true, decide_eq_true_eq] at hwn
  exact parseUAGo_comment_step h hrest hwn.1 hwn.2

/-- C9 witness: the spec's example comment, on the header
`"X/1 (FooOS; x64; BarPhone (6))"`. -/
theorem c9_nested_comment_witness :
    parse_user_agent "X/1 (FooOS; x64; BarPhone (6))"
      = .ok [⟨"X".data, some "1".data, some "FooOS; x64; BarPhone (6)".data⟩] := by
  have h := @c9_nested_comment "X/1 (FooOS; x64; BarPhone (6))".data none
    "X".data (some "1".data) " (FooOS; x64; BarPhone (6))".data
    "FooOS; x64; BarPhone (6)".data []
    (by decide) (by decide) (by decide)
  refine h.trans ?_
  rw [show pyStrip ([] : List Char) = [] from rfl,
    parseUAGo_eq_nil (show matchNameVersion ([] : List Char) = none from rfl)]
  rfl

/-- C10: `equivalent_major_browser` is not total: whenever the rule for
"Edge" (resp. "Firefox", the Chrome family, "Version" — each reached when
the earlier rules found no token) selects a token whose version is absent,
`get_major_version` is applied to `None` and the call raises
`AttributeError` instead of returning a result or the no-match value. -/
theorem c10_missing_version_crash :
    (∀ (tokens : List ProductToken) (t : ProductToken),
      find_token ["Edge".data] tokens = some t → t.version = none →
      equivalent_major_browser tokens = .error .attributeError)
    ∧ (∀ (tokens : List ProductToken) (t : ProductToken),
      find_token ["Edge".data] tokens = none →
      find_token ["Firefox".data] tokens = some t → t.version = none →
      equivalent_major_browser tokens = .error .attributeError)
    ∧ (∀ (tokens : List ProductToken) (t : ProductToken),
      find_token ["Edge".data] tokens = none →
      find_token ["Firefox".data] tokens = none →
      find_token ["Chrome".data, "Brave Chrome".data, "like Chrome".data,
        "HeadlessChrome".data] tokens = some t → t.version = none →
      equivalent_major_browser tokens = .error .attributeError)
    ∧ (∀ (tokens : List ProductToken) (t : ProductToken),
      find_token ["Edge".data] tokens = none →
      find_token ["Firefox".data] tokens = none →
      find_token ["Chrome".data, "Brave Chrome".data, "like Chrome".data,
        "HeadlessChrome".data] tokens = none →
      find_token ["Version".data] tokens = some t → t.version = none →
      equivalent_major_browser tokens = .error .attributeError) := by
  refine ⟨?_, ?_, ?_, ?_⟩ <;>
    (intro tokens t
     intros
     simp only [equivalent_major_browser, *])

/-- C10 witness: a sole "Edge" token with no version. -/
theorem c10_missing_version_crash_witness :
    equivalent_major_browser [⟨"Edge".data, none, none⟩]
      = .error .attributeError :=
  c10_missing_version_crash.1 [⟨"Edge".data, none, none⟩]
    ⟨"Edge".data, none, none⟩ (by decide) rfl

end UA
